import Mathlib

/-!
Verification of the AdaM device-assignment formulation pipeline.

The development shallowly embeds the core of
`optimization/optimize_device_assignment.py` (the preprocessing stage
`pre_process_objects`, the model-building constraints, and the result
extraction of `optimize`) together with `optimization/properties.py`.
Python floats are modelled as exact rationals, numpy matrices as functions
from index pairs to rationals (booleans for access matrices), and the
in-place mutation of matrices and lists as explicit state passing.
The external MILP solver is opaque: it is modelled by an abstract outcome
(a status plus solved variable values), and the emitted constraint set is
modelled as a satisfaction predicate on candidate solutions.

The `Element`, `Device` and `User` classes live in the repository's
`common` module, which is not part of the provided sources; they are
modelled from the specification (see the doc comments below).
-/

/-- Threshold 1e-6 used by `normalized` and the importance/access masking. -/
def eps6 : ℚ := 1 / 1000000

/-- Threshold 1e-5 used by the zero-importance / zero-compatibility pruning. -/
def eps5 : ℚ := 1 / 100000

/-- From `optimization/properties.py`: a 4-dimensional capability vector. -/
structure Properties where
  visual_display : Int
  text_input : Int
  touch_pointing : Int
  mouse_pointing : Int
  deriving DecidableEq

/-- The constructor of `Properties` asserts that each field is between 0 and 5
inclusive; a `Properties` value accepted by the constructor satisfies this. -/
abbrev Properties.valid (p : Properties) : Prop :=
  (0 ≤ p.visual_display ∧ p.visual_display ≤ 5) ∧
  (0 ≤ p.text_input ∧ p.text_input ≤ 5) ∧
  (0 ≤ p.touch_pointing ∧ p.touch_pointing ≤ 5) ∧
  (0 ≤ p.mouse_pointing ∧ p.mouse_pointing ≤ 5)

/-- From `optimization/properties.py`: the dot-product similarity. -/
def Properties.dot (a b : Properties) : Int :=
  a.visual_display * b.visual_display +
  a.text_input * b.text_input +
  a.touch_pointing * b.touch_pointing +
  a.mouse_pointing * b.mouse_pointing

instance : Inhabited Properties := ⟨⟨0, 0, 0, 0⟩⟩

/-- Modelled from the spec: the `Element` class of the missing `common`
module.  An element has a unique name, a base importance, min/max width and
height (areas are derived as width × height), a `Properties` vector, and a
capability check `user_has_access` which we model as a list of names of the
users the element grants access to. -/
structure Element where
  name : String
  importance : ℚ
  min_width : ℚ
  min_height : ℚ
  max_width : ℚ
  max_height : ℚ
  props : Properties
  access : List String
  deriving DecidableEq

instance : Inhabited Element := ⟨⟨"", 0, 0, 0, 0, 0, default, []⟩⟩

/-- Modelled from the spec: derived minimum area of an element. -/
def Element.minArea (el : Element) : ℚ := el.min_width * el.min_height

/-- Modelled from the spec: derived maximum area of an element. -/
def Element.maxArea (el : Element) : ℚ := el.max_width * el.max_height

/-- Modelled from the spec: the `Device` class of the missing `common`
module.  A device has a unique name, width and height (area derived), a
`Properties` vector, and the set of authorized users (modelled by name). -/
structure Device where
  name : String
  width : ℚ
  height : ℚ
  props : Properties
  users : List String
  deriving DecidableEq

instance : Inhabited Device := ⟨⟨"", 0, 0, default, []⟩⟩

/-- Modelled from the spec: derived area of a device. -/
def Device.area (dv : Device) : ℚ := dv.width * dv.height

/-- Modelled from the spec: the `User` class of the missing `common` module.
A user has a unique name and a mapping (association list) from element name
to a per-user importance override. -/
structure User where
  name : String
  importance : List (String × ℚ)
  deriving DecidableEq

instance : Inhabited User := ⟨⟨"", []⟩⟩

/-- Modelled from the spec: `element.user_has_access(user)`, the capability
check owned by the Element/User collaboration. -/
def Element.user_has_access (el : Element) (usr : User) : Bool :=
  decide (usr.name ∈ el.access)

/-- Modelled from the spec: `device.calculate_compatibility(element, 'dot')`,
the default dot-product compatibility metric between the device's and the
element's `Properties` vectors. -/
def calculate_compatibility (dv : Device) (el : Element) : ℚ :=
  ((dv.props.dot el.props : Int) : ℚ)

/-- The numpy expression `vector.max()` on a 1-D array, as a fold over the
listed entries. -/
def vecMax : List ℚ → ℚ
  | [] => 0
  | x :: xs => xs.foldl max x

/-- The `normalized` helper of `pre_process_objects`, applied to column `c`
of matrix `m` whose rows are `0, ..., R-1`: with `v_min` fixed at `0.0`, the
column is divided by its maximum when that maximum exceeds `1e-6` and is
left unchanged otherwise. -/
def normCol (R c : ℕ) (m : ℕ → ℕ → ℚ) : ℕ → ℕ → ℚ :=
  let vmax := vecMax ((List.range R).map (fun r => m r c))
  fun r c' => if c' = c then (if vmax > eps6 then m r c' / vmax else m r c') else m r c'

/-- A per-column normalization loop (`for i: m[:, i] = normalized(m[:, i])`)
over the columns `0, ..., C-1` of a matrix with rows `0, ..., R-1`. -/
def normAllCols (R C : ℕ) (m : ℕ → ℕ → ℚ) : ℕ → ℕ → ℚ :=
  (List.range C).foldl (fun acc c => normCol R c acc) m

/-- The numpy expression `np.count_nonzero` on a boolean vector given by its
list of entries. -/
def countTrue (l : List Bool) : ℕ := (l.filter id).length

/-- Every entry of a matrix is non-negative. -/
def NonnegM (m : ℕ → ℕ → ℚ) : Prop := ∀ r c, 0 ≤ m r c

/-- Column `c` of a matrix with rows `0, ..., R-1` lies in [0, 1]. -/
def GoodCol (R : ℕ) (m : ℕ → ℕ → ℚ) (c : ℕ) : Prop :=
  ∀ r < R, 0 ≤ m r c ∧ m r c ≤ 1

/-- The key order `lambda x: x.name` used by `optimize` to sort elements. -/
def elemLe (a b : Element) : Prop := a.name ≤ b.name

/-- The key order `lambda x: x.name` used by `optimize` to sort devices. -/
def devLe (a b : Device) : Prop := a.name ≤ b.name

/-- The key order `lambda x: x.name` used by `optimize` to sort users. -/
def userLe (a b : User) : Prop := a.name ≤ b.name

instance : DecidableRel elemLe := fun a b => inferInstanceAs (Decidable (a.name ≤ b.name))

instance : DecidableRel devLe := fun a b => inferInstanceAs (Decidable (a.name ≤ b.name))

instance : DecidableRel userLe := fun a b => inferInstanceAs (Decidable (a.name ≤ b.name))

instance : IsTotal Element elemLe := ⟨fun a b => le_total a.name b.name⟩

instance : IsTotal Device devLe := ⟨fun a b => le_total a.name b.name⟩

instance : IsTotal User userLe := ⟨fun a b => le_total a.name b.name⟩

instance : IsTrans Element elemLe := ⟨fun _ _ _ h h' => le_trans h h'⟩

instance : IsTrans Device devLe := ⟨fun _ _ _ h h' => le_trans h h'⟩

instance : IsTrans User userLe := ⟨fun _ _ _ h h' => le_trans h h'⟩

/-- The call `elements.sort(key=lambda x: x.name)`: a stable sort by name. -/
def sortElems (l : List Element) : List Element := List.insertionSort elemLe l

/-- The call `devices.sort(key=lambda x: x.name)`: a stable sort by name. -/
def sortDevs (l : List Device) : List Device := List.insertionSort devLe l

/-- The call `users.sort(key=lambda x: x.name)`: a stable sort by name. -/
def sortUsers (l : List User) : List User := List.insertionSort userLe l

/-- The `element_name_index` dictionary of `pre_process_objects`: the index
of the (last) element with a given name, if any. -/
def element_name_index (elements : List Element) (nm : String) : Option ℕ :=
  (List.range elements.length).foldl
    (fun acc i => if (elements.getD i default).name = nm then some i else acc) none

/-- Lines 302-308 of `optimize_device_assignment.py`: the initial
`element_user_imp` matrix, i.e. each element's base importance overwritten
by the user's per-element importance override when the override's element
name occurs in the element list. -/
def initialElementUserImp (elements : List Element) (users : List User) : ℕ → ℕ → ℚ :=
  fun e u =>
    ((users.getD u default).importance).foldl
      (fun cur p =>
        match element_name_index elements p.1 with
        | some i => if i = e then p.2 else cur
        | none => cur)
      ((elements.getD e default).importance)

/-- Lines 311-315: raw element-device compatibility before normalization. -/
def rawCompMatrix (elements : List Element) (devices : List Device) : ℕ → ℕ → ℚ :=
  fun e d => calculate_compatibility (devices.getD d default) (elements.getD e default)

/-- The mutable state threaded through the refinement loop of
`pre_process_objects` (lines 351-360): the aggregated element-device
importance matrix and the user-element access matrix. -/
structure RefState where
  imp : ℕ → ℕ → ℚ
  uea : ℕ → ℕ → Bool

/-- The body of the refinement loop for a single (element `e`, device `d`)
pair (lines 353-359): with `comp = user_element_access[:, e] *
user_device_access[:, d]`, if the device has more than one authorized user
but exactly one entry of `comp` is nonzero, zero `element_device_imp[e, d]`
and set `user_element_access[u, e] = 0` for every `u` with `comp[u] = 0`. -/
def refineStep (U : ℕ) (uda : ℕ → ℕ → Bool) (d e : ℕ) (st : RefState) : RefState :=
  let comp : ℕ → Bool := fun u => st.uea u e && uda u d
  if 1 < countTrue ((List.range U).map (fun u => uda u d)) ∧
     countTrue ((List.range U).map comp) = 1 then
    { imp := fun e' d' => if e' = e ∧ d' = d then 0 else st.imp e' d',
      uea := fun u' e' => if e' = e ∧ u' < U ∧ (st.uea u' e && uda u' d) = false
                          then false else st.uea u' e' }
  else st

/-- One device iteration of the refinement loop (lines 352-360): run
`refineStep` for every element index, then re-normalize the device's
importance column. -/
def refineColumn (E U : ℕ) (uda : ℕ → ℕ → Bool) (d : ℕ) (st : RefState) : RefState :=
  let st' := (List.range E).foldl (fun acc e => refineStep U uda d e acc) st
  { st' with imp := normCol E d st'.imp }

/-- The whole refinement loop over all device columns. -/
def refineAll (E D U : ℕ) (uda : ℕ → ℕ → Bool) (st : RefState) : RefState :=
  (List.range D).foldl (fun acc d => refineColumn E U uda d acc) st

/-- The five matrices returned by `pre_process_objects`. -/
structure PreOut where
  element_user_imp : ℕ → ℕ → ℚ
  element_device_imp : ℕ → ℕ → ℚ
  element_device_comp : ℕ → ℕ → ℚ
  user_device_access : ℕ → ℕ → Bool
  user_element_access : ℕ → ℕ → Bool

/-- Lines 317-322: the boolean user-device access matrix,
`user_device_access[u, d] = 1` iff the user is in `device.users`. -/
def udaMatrix (devices : List Device) (users : List User) : ℕ → ℕ → Bool :=
  fun u d => decide ((users.getD u default).name ∈ (devices.getD d default).users)

/-- Lines 324-332: the initial boolean user-element access matrix,
`user_element_access[u, e] = 1` iff `element.user_has_access(user)`. -/
def uea0Matrix (elements : List Element) (users : List User) : ℕ → ℕ → Bool :=
  fun u e => (elements.getD e default).user_has_access (users.getD u default)

/-- Lines 326-334: `element_user_imp` after zeroing denied entries (line
332) and multiplying elementwise with the transposed access matrix (line
334); both steps zero exactly the entries of denied (user, element) pairs. -/
def imp2Matrix (elements : List Element) (users : List User) : ℕ → ℕ → ℚ :=
  fun e u =>
    (if uea0Matrix elements users u e then initialElementUserImp elements users e u
     else 0) *
    (if uea0Matrix elements users u e then 1 else 0)

/-- Lines 335-336: `element_user_imp` after per-user column normalization;
this is the matrix `pre_process_objects` returns. -/
def euiMatrix (elements : List Element) (users : List User) : ℕ → ℕ → ℚ :=
  normAllCols elements.length users.length (imp2Matrix elements users)

/-- Lines 339-342: user-element access after revoking entries whose
normalized importance is below `1e-6`. -/
def uea1Matrix (elements : List Element) (users : List User) : ℕ → ℕ → Bool :=
  fun u e => if euiMatrix elements users e u < eps6 then false else
    uea0Matrix elements users u e

/-- Line 345: the matrix product `element_user_imp * user_device_access`
(booleans contributing 1.0 when set). -/
def impED0Matrix (elements : List Element) (devices : List Device)
    (users : List User) : ℕ → ℕ → ℚ :=
  fun e d =>
    ((List.range users.length).map
      (fun u => euiMatrix elements users e u *
        (if udaMatrix devices users u d then (1 : ℚ) else 0))).sum

/-- Lines 346-349: each device column divided by the number of users with
access to the device, when that number is positive. -/
def impED1Matrix (elements : List Element) (devices : List Device)
    (users : List User) : ℕ → ℕ → ℚ :=
  fun e d =>
    let cnt := countTrue ((List.range users.length).map
      (fun u => udaMatrix devices users u d))
    if 0 < cnt then impED0Matrix elements devices users e d / (cnt : ℚ)
    else impED0Matrix elements devices users e d

/-- Lines 311-315: the per-device normalized compatibility matrix. -/
def compMatrix (elements : List Element) (devices : List Device) : ℕ → ℕ → ℚ :=
  normAllCols elements.length devices.length (rawCompMatrix elements devices)

/-- Shallow embedding of `pre_process_objects` (lines 283-371), with the
disabled `add_noise` path omitted exactly as in the source (the calls are
commented out there).  Matrices are total functions on index pairs; entries
outside the `elements × devices × users` index ranges are junk values that
the pipeline never reads back meaningfully. -/
def pre_process_objects (elements : List Element) (devices : List Device)
    (users : List User) : PreOut :=
  ⟨euiMatrix elements users,
   (refineAll elements.length devices.length users.length
      (udaMatrix devices users)
      ⟨impED1Matrix elements devices users, uea1Matrix elements users⟩).imp,
   compMatrix elements devices,
   udaMatrix devices users,
   (refineAll elements.length devices.length users.length
      (udaMatrix devices users)
      ⟨impED1Matrix elements devices users, uea1Matrix elements users⟩).uea⟩

/-- Lines 103-108: `element_device_access[e, d]`, initialized to ones and
cleared when `np.dot(user_device_access[:, d], user_element_access[:, e])`
(the boolean dot product, true iff some user has both accesses) is false. -/
def element_device_access (U : ℕ) (uda uea : ℕ → ℕ → Bool) : ℕ → ℕ → Bool :=
  fun e d => (List.range U).any (fun u => uda u d && uea u e)

/-- Lines 112-129: `element_device_access` after the zero-importance and
zero-compatibility pruning pass (the `elif` chain also clears the matrix
entry, so afterwards the entry is set exactly when the privacy check passed
and both thresholds are met). -/
def edaFinal (U : ℕ) (m : PreOut) : ℕ → ℕ → Bool :=
  fun e d =>
    element_device_access U m.user_device_access m.user_element_access e d
      && !(decide (m.element_device_imp e d < eps5))
      && !(decide (m.element_device_comp e d < eps5))

/-- A candidate valuation of the decision variables `x[e, d]` (assignment)
and `s[e, d]` (occupied size) of the MILP model. -/
structure MilpSolution where
  x : ℕ → ℕ → ℚ
  s : ℕ → ℕ → ℚ

/-- The constraints emitted by the model builder on the `x`/`s` variables
(lines 71-137): binary domain of `x`, per-device capacity, dimension
feasibility, the indicator coupling of `s` to `x`, the privacy /
zero-importance / zero-compatibility pruning, and orphan-device pruning.
The diversity bookkeeping constraints (lines 140-172) only define auxiliary
variables and do not further constrain `x` or `s`, so any `x`/`s` valuation
of a model solution satisfies this predicate. -/
abbrev ModelSat (elements : List Element) (devices : List Device) (users : List User)
    (m : PreOut) (sol : MilpSolution) : Prop :=
  (∀ e < elements.length, ∀ d < devices.length, sol.x e d = 0 ∨ sol.x e d = 1) ∧
  (∀ d < devices.length,
    ((List.range elements.length).map (fun e => sol.s e d)).sum
      ≤ (devices.getD d default).area) ∧
  (∀ e < elements.length, ∀ d < devices.length,
    ((elements.getD e default).min_width > (devices.getD d default).width ∨
     (elements.getD e default).min_height > (devices.getD d default).height) →
    sol.x e d = 0) ∧
  (∀ e < elements.length, ∀ d < devices.length, sol.x e d = 0 → sol.s e d = 0) ∧
  (∀ e < elements.length, ∀ d < devices.length, sol.x e d = 1 →
    (elements.getD e default).minArea ≤ sol.s e d ∧
    sol.s e d ≤ min (elements.getD e default).maxArea (devices.getD d default).area) ∧
  (∀ e < elements.length, ∀ d < devices.length,
    edaFinal users.length m e d = false → sol.x e d = 0) ∧
  (∀ d < devices.length, (∀ e < elements.length, edaFinal users.length m e d = false) →
    ((List.range elements.length).map (fun e => sol.x e d)).sum = 0)

/-- The opaque solver's report: its status (optimal or not), the solved
values of the `x` and `s` variables, and the wall-clock time of the
modeling-and-solve stage. -/
structure SolverOutcome where
  optimal : Bool
  xval : ℕ → ℕ → ℚ
  sval : ℕ → ℕ → ℚ
  elapsed : ℚ

/-- The element indices assigned to device `d` in a solved model: those `e`
with `x[e, d] = 1` (the fill loop skips every other value). -/
def assignedIdx (x : ℕ → ℕ → ℚ) (E d : ℕ) : List ℕ :=
  (List.range E).filter (fun e => decide (x e d = 1))

/-- The mutable state of the result-extraction loop (lines 269-279): the
per-device lists of assigned element indices, and the per-element
`_optimizer_size` annotation keyed by device name. -/
structure FillState where
  out : ℕ → List ℕ
  sizes : ℕ → String → Option ℚ

/-- One iteration of the result-extraction loop for the dictionary key
`p = (e, d)`: skip unless `x[e, d] = 1`; otherwise record the solved size
on the element under the device's name and append the element to the
device's output list. -/
def fillStep (devices : List Device) (x s : ℕ → ℕ → ℚ) (st : FillState)
    (p : ℕ × ℕ) : FillState :=
  if x p.1 p.2 = 1 then
    { out := fun d' => if d' = p.2 then st.out d' ++ [p.1] else st.out d',
      sizes := fun e' nm =>
        if e' = p.1 ∧ nm = (devices.getD p.2 default).name then some (s p.1 p.2)
        else st.sizes e' nm }
  else st

/-- The key set of the variable dictionary `x`, whose keys were inserted
element-major (lines 71-76), listed in insertion order.  Python 2 dicts
iterate in hash-slot order, not insertion order, so this list is only the
canonical enumeration of the keys; the order in which `x.items()` actually
yields them is modelled separately (see `fillRun`). -/
def xPairs (E D : ℕ) : List (ℕ × ℕ) :=
  (List.range E).flatMap (fun e => (List.range D).map (fun d => (e, d)))

/-- The whole result-extraction loop over the `x` dictionary.  CPython 2
iterates a dict in hash-slot order, which is opaque at this level, so the
sequence of keys yielded by `x.items()` is the parameter `order`; a
well-formed order enumerates exactly the inserted keys (a permutation of
`xPairs`), which theorems assume where they need it. -/
def fillRun (x s : ℕ → ℕ → ℚ) (order : List (ℕ × ℕ))
    (devices : List Device) : FillState :=
  order.foldl (fillStep devices x s) ⟨fun _ => [], fun _ _ => none⟩

/-- The output dictionary with every device mapped to an empty list
(lines 47-49 and 220-222). -/
def emptyMapping (devices : List Device) : List (Device × List Element) :=
  devices.map (fun dv => (dv, []))

/-- The output dictionary after the fill loop: each device (in sorted
order) paired with its assigned elements. -/
def buildMapping (devices : List Device) (elements : List Element)
    (out : ℕ → List ℕ) : List (Device × List Element) :=
  (List.range devices.length).map
    (fun d => (devices.getD d default, (out d).map (fun e => elements.getD e default)))

/-- What a call to `optimize` produces, including the caller-visible state
of the three input lists (which `optimize` sorts in place) and the
`_optimizer_size` annotations attached to elements. -/
structure OptimizeResult where
  mapping : List (Device × List Element)
  elapsed : ℚ
  elementsAfter : List Element
  devicesAfter : List Device
  usersAfter : List User
  sizes : ℕ → String → Option ℚ

/-- Shallow embedding of `optimize` (lines 25-280).  The three input lists
are sorted by name (an in-place mutation, modelled by returning the sorted
lists); with an empty elements, devices or users list the all-empty mapping
is returned with elapsed time 0.0 and no model is built; otherwise the
model is built from `pre_process_objects` of the sorted lists and handed to
the opaque solver, whose report is the parameter `outcome`; a non-optimal
status returns the all-empty mapping, and an optimal one runs the fill
loop over the solved `x`/`s` values, iterating the `x` dictionary in the
opaque CPython hash-slot order `order`. -/
def optimize (order : List (ℕ × ℕ)) (outcome : SolverOutcome)
    (elements : List Element) (devices : List Device)
    (users : List User) : OptimizeResult :=
  if (sortUsers users).length = 0 ∨ (sortDevs devices).length = 0 ∨
     (sortElems elements).length = 0 then
    ⟨emptyMapping (sortDevs devices), 0, sortElems elements, sortDevs devices,
      sortUsers users, fun _ _ => none⟩
  else
    if outcome.optimal then
      ⟨buildMapping (sortDevs devices) (sortElems elements)
          (fillRun outcome.xval outcome.sval order (sortDevs devices)).out,
        outcome.elapsed, sortElems elements, sortDevs devices, sortUsers users,
        (fillRun outcome.xval outcome.sval order (sortDevs devices)).sizes⟩
    else
      ⟨emptyMapping (sortDevs devices), outcome.elapsed, sortElems elements,
        sortDevs devices, sortUsers users, fun _ _ => none⟩

/-- The all-zero candidate solution (no element assigned anywhere). -/
def zeroSol : MilpSolution := ⟨fun _ _ => 0, fun _ _ => 0⟩

/-- Concrete capability vector used in witnesses. -/
def propsA : Properties := ⟨5, 0, 5, 0⟩

/-- Concrete element used in witnesses (accessible to alice). -/
def elemA : Element := ⟨"canvas", 10, 1, 1, 2, 2, propsA, ["alice"]⟩

/-- Concrete element used in witnesses (accessible to bob only). -/
def elemSecret : Element := ⟨"secret", 2, 1, 1, 2, 2, propsA, ["bob"]⟩

/-- Concrete device used in witnesses (alice's screen). -/
def devA : Device := ⟨"screen", 4, 3, propsA, ["alice"]⟩

/-- Concrete user used in witnesses. -/
def userA : User := ⟨"alice", [("canvas", 3)]⟩

/-- User-device access with users 0 and 1 on every device. -/
def c2uda : ℕ → ℕ → Bool := fun u _ => decide (u < 2)

/-- Refinement state where only user 0 has access to element 0. -/
def c2st : RefState := ⟨fun _ _ => 1, fun u e => decide (u = 0) && decide (e = 0)⟩

/-- Refinement state where users 0 and 2 have access to element 0. -/
def c2wst : RefState :=
  ⟨fun _ _ => 1, fun u e => (decide (u = 0) || decide (u = 2)) && decide (e = 0)⟩

/-- A solver report with optimal status and the all-zero valuation. -/
def outcomeOptZero : SolverOutcome := ⟨true, fun _ _ => 0, fun _ _ => 0, 5⟩

/-- A solver report with non-optimal status. -/
def outcomeBad : SolverOutcome := ⟨false, fun _ _ => 0, fun _ _ => 0, 3⟩

/-- A solver report with optimal status assigning everything with size 2. -/
def outcomeOnes : SolverOutcome := ⟨true, fun _ _ => 1, fun _ _ => 2, 4⟩

/-- Concrete element named a, used in the C7 hash-order counterexample. -/
def c7eA : Element := ⟨"a", 1, 1, 1, 2, 2, propsA, ["alice"]⟩

/-- Concrete element named b, used in the C7 hash-order counterexample. -/
def c7eB : Element := ⟨"b", 1, 1, 1, 2, 2, propsA, ["alice"]⟩

/-- Concrete element named c, used in the C7 hash-order counterexample. -/
def c7eC : Element := ⟨"c", 1, 1, 1, 2, 2, propsA, ["alice"]⟩

/-- A hash-slot iteration order of the `x` dictionary as produced by
CPython 2 for a 3-element, 1-device instance: the keys come out
(0,0), (2,0), (1,0) — a permutation of the inserted key set, but not in
insertion order. -/
def c7order : List (ℕ × ℕ) := [(0, 0), (2, 0), (1, 0)]

/-!  ## Helper lemmas  -/

theorem length_sortElems (l : List Element) : (sortElems l).length = l.length :=
  (List.perm_insertionSort elemLe l).length_eq

theorem length_sortDevs (l : List Device) : (sortDevs l).length = l.length :=
  (List.perm_insertionSort devLe l).length_eq

theorem length_sortUsers (l : List User) : (sortUsers l).length = l.length :=
  (List.perm_insertionSort userLe l).length_eq

theorem mapFst_emptyMapping (ds : List Device) :
    (emptyMapping ds).map Prod.fst = ds := by
  simp only [emptyMapping, List.map_map]
  exact List.map_id ds

theorem snd_eq_nil_of_mem_emptyMapping {ds : List Device}
    {p : Device × List Element} (hp : p ∈ emptyMapping ds) : p.2 = [] := by
  simp only [emptyMapping, List.mem_map] at hp
  obtain ⟨dv, _, rfl⟩ := hp
  rfl

theorem int_mul_le_25 {x y : Int} (hx0 : 0 ≤ x) (hx5 : x ≤ 5)
    (hy0 : 0 ≤ y) (hy5 : y ≤ 5) : x * y ≤ 25 := by nlinarith [mul_nonneg hx0 hy0]

theorem Properties.dot_nonneg {a b : Properties} (ha : a.valid) (hb : b.valid) :
    0 ≤ a.dot b := by
  obtain ⟨⟨a1, _⟩, ⟨a2, _⟩, ⟨a3, _⟩, ⟨a4, _⟩⟩ := ha
  obtain ⟨⟨b1, _⟩, ⟨b2, _⟩, ⟨b3, _⟩, ⟨b4, _⟩⟩ := hb
  have h1 := mul_nonneg a1 b1
  have h2 := mul_nonneg a2 b2
  have h3 := mul_nonneg a3 b3
  have h4 := mul_nonneg a4 b4
  unfold Properties.dot
  linarith

theorem Properties.dot_le_100 {a b : Properties} (ha : a.valid) (hb : b.valid) :
    a.dot b ≤ 100 := by
  obtain ⟨⟨a1, a1'⟩, ⟨a2, a2'⟩, ⟨a3, a3'⟩, ⟨a4, a4'⟩⟩ := ha
  obtain ⟨⟨b1, b1'⟩, ⟨b2, b2'⟩, ⟨b3, b3'⟩, ⟨b4, b4'⟩⟩ := hb
  have h1 := int_mul_le_25 a1 a1' b1 b1'
  have h2 := int_mul_le_25 a2 a2' b2 b2'
  have h3 := int_mul_le_25 a3 a3' b3 b3'
  have h4 := int_mul_le_25 a4 a4' b4 b4'
  unfold Properties.dot
  linarith

/-!  ## Claims  -/

/-- C10: for every two `Properties` values accepted by the constructor (each
field between 0 and 5), `dot` is commutative and its result is an integer in
[0, 100]; consequently every raw element-device compatibility score under
the default dot metric is non-negative. -/
theorem claim_C10 (a b : Properties) (ha : a.valid) (hb : b.valid) :
    a.dot b = b.dot a ∧ 0 ≤ a.dot b ∧ a.dot b ≤ 100 ∧
    ∀ (dv : Device) (el : Element), dv.props.valid → el.props.valid →
      0 ≤ calculate_compatibility dv el := by
  refine ⟨?_, Properties.dot_nonneg ha hb, Properties.dot_le_100 ha hb, ?_⟩
  · unfold Properties.dot; ring
  · intro dv el h1 h2
    unfold calculate_compatibility
    exact_mod_cast Properties.dot_nonneg h1 h2

/-- Witness for C10 at two concrete constructor-accepted values. -/
theorem claim_C10_witness :
    (Properties.valid ⟨5, 0, 5, 0⟩ ∧ Properties.valid ⟨1, 2, 3, 4⟩) ∧
    (Properties.dot ⟨5, 0, 5, 0⟩ ⟨1, 2, 3, 4⟩ = Properties.dot ⟨1, 2, 3, 4⟩ ⟨5, 0, 5, 0⟩ ∧
     0 ≤ Properties.dot ⟨5, 0, 5, 0⟩ ⟨1, 2, 3, 4⟩ ∧
     Properties.dot ⟨5, 0, 5, 0⟩ ⟨1, 2, 3, 4⟩ ≤ 100 ∧
     ∀ (dv : Device) (el : Element), dv.props.valid → el.props.valid →
       0 ≤ calculate_compatibility dv el) :=
  ⟨⟨by decide, by decide⟩, claim_C10 ⟨5, 0, 5, 0⟩ ⟨1, 2, 3, 4⟩ (by decide) (by decide)⟩

/-- C8: with the noise path disabled (as in the source, where the
`add_noise` calls are commented out), two runs of `pre_process_objects` on
identical, unmutated inputs produce identical values for all five returned
matrices. -/
theorem claim_C8 (es₁ es₂ : List Element) (ds₁ ds₂ : List Device)
    (us₁ us₂ : List User) (h1 : es₁ = es₂) (h2 : ds₁ = ds₂) (h3 : us₁ = us₂) :
    pre_process_objects es₁ ds₁ us₁ = pre_process_objects es₂ ds₂ us₂ := by
  subst h1; subst h2; subst h3; rfl

/-- Witness for C8: two runs on a concrete identical input coincide. -/
theorem claim_C8_witness :
    pre_process_objects [elemA] [devA] [userA] =
      pre_process_objects [elemA] [devA] [userA] :=
  claim_C8 [elemA] [elemA] [devA] [devA] [userA] [userA] rfl rfl rfl

/-- C2 counterexample: with two authorized users on device 0 of which
exactly user 0 also has access to element 0, the refinement step zeroes the
aggregated importance but the single user's element access is NOT revoked
(it stays `true`), contrary to the claim. -/
theorem claim_C2_counterexample :
    (1 < countTrue ((List.range 2).map (fun u => c2uda u 0)) ∧
     countTrue ((List.range 2).map (fun u => c2st.uea u 0 && c2uda u 0)) = 1) ∧
    (refineStep 2 c2uda 0 0 c2st).imp 0 0 = 0 ∧
    (refineStep 2 c2uda 0 0 c2st).uea 0 0 = true := by decide

/-- C2 (amended): in the refinement step, for every (element `e`, device
`d`) pair where the device has more than one authorized user but exactly
one user has simultaneous access to both `e` and `d`, the aggregated
importance `element_device_imp[e, d]` is set to 0 and the element access of
every user `u < U` WITHOUT simultaneous access (`comp[u] = 0`) is revoked;
the single user with simultaneous access keeps their element access, and
entries for other elements are unchanged by this step. -/
theorem claim_C2 (U : ℕ) (uda : ℕ → ℕ → Bool) (d e : ℕ) (st : RefState)
    (h1 : 1 < countTrue ((List.range U).map (fun u => uda u d)))
    (h2 : countTrue ((List.range U).map (fun u => st.uea u e && uda u d)) = 1) :
    (refineStep U uda d e st).imp e d = 0 ∧
    (∀ u < U, (st.uea u e && uda u d) = false →
      (refineStep U uda d e st).uea u e = false) ∧
    (∀ u, (st.uea u e && uda u d) = true →
      (refineStep U uda d e st).uea u e = st.uea u e) ∧
    (∀ u e', e' ≠ e → (refineStep U uda d e st).uea u e' = st.uea u e') := by
  have hcond := And.intro h1 h2
  simp only [refineStep]
  rw [if_pos hcond]
  refine ⟨by simp, ?_, ?_, ?_⟩
  · intro u hu hfalse
    simp [hu, hfalse]
  · intro u htrue
    simp [htrue]
  · intro u e' hne
    simp [hne]

/-- Witness for C2 (amended) at a concrete state: three users, users 0 and
1 authorized on device 0, users 0 and 2 with access to element 0; only user
0 has simultaneous access, so users 1 and 2 lose element access and user 0
keeps it. -/
theorem claim_C2_witness :
    (1 < countTrue ((List.range 3).map (fun u => c2uda u 0)) ∧
     countTrue ((List.range 3).map (fun u => c2wst.uea u 0 && c2uda u 0)) = 1) ∧
    ((refineStep 3 c2uda 0 0 c2wst).imp 0 0 = 0 ∧
     (∀ u < 3, (c2wst.uea u 0 && c2uda u 0) = false →
       (refineStep 3 c2uda 0 0 c2wst).uea u 0 = false) ∧
     (∀ u, (c2wst.uea u 0 && c2uda u 0) = true →
       (refineStep 3 c2uda 0 0 c2wst).uea u 0 = c2wst.uea u 0) ∧
     (∀ u e', e' ≠ 0 → (refineStep 3 c2uda 0 0 c2wst).uea u e' = c2wst.uea u e')) :=
  ⟨⟨by decide, by decide⟩, claim_C2 3 c2uda 0 0 c2wst (by decide) (by decide)⟩

/-- C6: with an empty elements, devices or users list, `optimize` skips
model construction and returns a mapping sending every input device to an
empty list, with elapsed time exactly 0. -/
theorem claim_C6 (order : List (ℕ × ℕ)) (outcome : SolverOutcome)
    (es : List Element) (ds : List Device) (us : List User)
    (h : es.length = 0 ∨ ds.length = 0 ∨ us.length = 0) :
    (optimize order outcome es ds us).mapping = emptyMapping (sortDevs ds) ∧
    (optimize order outcome es ds us).mapping.map Prod.fst = sortDevs ds ∧
    List.Perm (sortDevs ds) ds ∧
    (∀ p ∈ (optimize order outcome es ds us).mapping, p.2 = ([] : List Element)) ∧
    (optimize order outcome es ds us).elapsed = 0 := by
  have hc : (sortUsers us).length = 0 ∨ (sortDevs ds).length = 0 ∨
      (sortElems es).length = 0 := by
    rw [length_sortUsers, length_sortDevs, length_sortElems]; tauto
  unfold optimize
  rw [if_pos hc]
  exact ⟨rfl, mapFst_emptyMapping _, List.perm_insertionSort devLe ds,
    fun p hp => snd_eq_nil_of_mem_emptyMapping hp, rfl⟩

/-- Witness for C6 at a concrete degenerate input (no elements). -/
theorem claim_C6_witness :
    ([] : List Element).length = 0 ∧
    ((optimize ([] : List (ℕ × ℕ)) outcomeOptZero [] [devA] [userA]).mapping =
      emptyMapping (sortDevs [devA]) ∧
     (optimize ([] : List (ℕ × ℕ)) outcomeOptZero [] [devA] [userA]).mapping.map Prod.fst =
      sortDevs [devA] ∧
     List.Perm (sortDevs [devA]) [devA] ∧
     (∀ p ∈ (optimize ([] : List (ℕ × ℕ)) outcomeOptZero [] [devA] [userA]).mapping,
       p.2 = ([] : List Element)) ∧
     (optimize ([] : List (ℕ × ℕ)) outcomeOptZero [] [devA] [userA]).elapsed = 0) :=
  ⟨rfl, claim_C6 ([] : List (ℕ × ℕ)) outcomeOptZero [] [devA] [userA] (Or.inl rfl)⟩

/-- C5: on non-empty inputs with a non-optimal solver status, `optimize`
returns the mapping in which every input device is a key mapped to an empty
list (never a partial assignment) together with the elapsed time of the
modeling-and-solve stage; the embedding is total, so no exception arises. -/
theorem claim_C5 (order : List (ℕ × ℕ)) (outcome : SolverOutcome)
    (es : List Element) (ds : List Device) (us : List User)
    (hne : us.length ≠ 0 ∧ ds.length ≠ 0 ∧ es.length ≠ 0)
    (hst : outcome.optimal = false) :
    (optimize order outcome es ds us).mapping = emptyMapping (sortDevs ds) ∧
    (optimize order outcome es ds us).mapping.map Prod.fst = sortDevs ds ∧
    List.Perm (sortDevs ds) ds ∧
    (∀ p ∈ (optimize order outcome es ds us).mapping, p.2 = ([] : List Element)) ∧
    (optimize order outcome es ds us).elapsed = outcome.elapsed := by
  have hc : ¬((sortUsers us).length = 0 ∨ (sortDevs ds).length = 0 ∨
      (sortElems es).length = 0) := by
    rw [length_sortUsers, length_sortDevs, length_sortElems]
    push_neg
    exact hne
  have hco : ¬(outcome.optimal = true) := by rw [hst]; simp
  unfold optimize
  rw [if_neg hc, if_neg hco]
  exact ⟨rfl, mapFst_emptyMapping _, List.perm_insertionSort devLe ds,
    fun p hp => snd_eq_nil_of_mem_emptyMapping hp, rfl⟩

/-- Witness for C5 at a concrete non-empty input with non-optimal status. -/
theorem claim_C5_witness :
    (([userA] : List User).length ≠ 0 ∧ ([devA] : List Device).length ≠ 0 ∧
     ([elemA] : List Element).length ≠ 0) ∧ outcomeBad.optimal = false ∧
    ((optimize ([] : List (ℕ × ℕ)) outcomeBad [elemA] [devA] [userA]).mapping =
      emptyMapping (sortDevs [devA]) ∧
     (optimize ([] : List (ℕ × ℕ)) outcomeBad [elemA] [devA] [userA]).mapping.map Prod.fst =
      sortDevs [devA] ∧
     List.Perm (sortDevs [devA]) [devA] ∧
     (∀ p ∈ (optimize ([] : List (ℕ × ℕ)) outcomeBad [elemA] [devA] [userA]).mapping,
       p.2 = ([] : List Element)) ∧
     (optimize ([] : List (ℕ × ℕ)) outcomeBad [elemA] [devA] [userA]).elapsed = outcomeBad.elapsed) :=
  ⟨by decide, rfl, claim_C5 ([] : List (ℕ × ℕ)) outcomeBad [elemA] [devA] [userA] (by decide) rfl⟩

/-- C9 (implicit frame effect): `optimize` sorts its three input lists in
place by name before any other processing, so after every call (including
the degenerate empty-input return) the caller's lists are the name-sorted
permutations of the originals, containing exactly the original objects. -/
theorem claim_C9 (order : List (ℕ × ℕ)) (outcome : SolverOutcome)
    (es : List Element) (ds : List Device) (us : List User) :
    ((optimize order outcome es ds us).elementsAfter = sortElems es ∧
     (optimize order outcome es ds us).devicesAfter = sortDevs ds ∧
     (optimize order outcome es ds us).usersAfter = sortUsers us) ∧
    (List.Perm (optimize order outcome es ds us).elementsAfter es ∧
     List.Sorted elemLe (optimize order outcome es ds us).elementsAfter) ∧
    (List.Perm (optimize order outcome es ds us).devicesAfter ds ∧
     List.Sorted devLe (optimize order outcome es ds us).devicesAfter) ∧
    (List.Perm (optimize order outcome es ds us).usersAfter us ∧
     List.Sorted userLe (optimize order outcome es ds us).usersAfter) := by
  have he : (optimize order outcome es ds us).elementsAfter = sortElems es := by
    unfold optimize; split_ifs <;> rfl
  have hd : (optimize order outcome es ds us).devicesAfter = sortDevs ds := by
    unfold optimize; split_ifs <;> rfl
  have hu : (optimize order outcome es ds us).usersAfter = sortUsers us := by
    unfold optimize; split_ifs <;> rfl
  rw [he, hd, hu]
  exact ⟨⟨rfl, rfl, rfl⟩,
    ⟨List.perm_insertionSort elemLe es, List.sorted_insertionSort elemLe es⟩,
    ⟨List.perm_insertionSort devLe ds, List.sorted_insertionSort devLe ds⟩,
    ⟨List.perm_insertionSort userLe us, List.sorted_insertionSort userLe us⟩⟩

theorem foldl_flatMap_eq {α β γ : Type} (f : γ → α → γ) (g : β → List α)
    (l : List β) (init : γ) :
    (l.flatMap g).foldl f init = l.foldl (fun acc b => (g b).foldl f acc) init := by
  induction l generalizing init with
  | nil => rfl
  | cons b tl ih => simp only [List.flatMap_cons, List.foldl_append, List.foldl_cons, ih]

theorem innerFill_out (ds' : List Device) (x s : ℕ → ℕ → ℚ) (e : ℕ)
    (ds : List ℕ) (st : FillState) (d : ℕ) (hnd : ds.Nodup) :
    ((ds.foldl (fun acc d' => fillStep ds' x s acc (e, d')) st).out d) =
      if d ∈ ds ∧ x e d = 1 then st.out d ++ [e] else st.out d := by
  induction ds generalizing st with
  | nil => simp
  | cons d0 tl ih =>
    rw [List.nodup_cons] at hnd
    rw [List.foldl_cons, ih _ hnd.2]
    by_cases hd0 : d = d0
    · subst hd0
      have hdtl : d ∉ tl := hnd.1
      simp only [hdtl, false_and, if_false]
      by_cases hx : x e d = 1
      · simp [fillStep, hx, List.mem_cons]
      · simp [fillStep, hx, List.mem_cons, hdtl]
    · have hout : (fillStep ds' x s st (e, d0)).out d = st.out d := by
        by_cases hx : x e d0 = 1
        · simp [fillStep, hx, hd0]
        · simp [fillStep, hx]
      rw [hout]
      simp [List.mem_cons, hd0]

theorem outerFill_out (ds' : List Device) (x s : ℕ → ℕ → ℚ) (es : List ℕ)
    (st : FillState) (d : ℕ) (hd : d < ds'.length) :
    ((es.flatMap (fun e => (List.range ds'.length).map (fun d' => (e, d')))).foldl
        (fillStep ds' x s) st).out d
      = st.out d ++ es.filter (fun e => decide (x e d = 1)) := by
  induction es generalizing st with
  | nil => simp
  | cons e tl ih =>
    rw [List.flatMap_cons, List.foldl_append, ih, List.foldl_map,
      innerFill_out ds' x s e _ st d (List.nodup_range _), List.filter_cons]
    by_cases hx : x e d = 1
    · rw [if_pos ⟨List.mem_range.mpr hd, hx⟩, if_pos (decide_eq_true hx)]
      simp
    · rw [if_neg (fun h => hx h.2), if_neg (fun h => hx (of_decide_eq_true h))]

theorem fillRun_out (x s : ℕ → ℕ → ℚ) (E : ℕ) (ds' : List Device) (d : ℕ)
    (hd : d < ds'.length) :
    (fillRun x s (xPairs E ds'.length) ds').out d = assignedIdx x E d := by
  unfold fillRun xPairs assignedIdx
  rw [outerFill_out _ _ _ _ _ _ hd]
  simp

theorem fillFold_out_spec (ds' : List Device) (x s : ℕ → ℕ → ℚ)
    (order : List (ℕ × ℕ)) (st : FillState) (d : ℕ) :
    (order.foldl (fillStep ds' x s) st).out d =
      st.out d ++ (order.filter
        (fun p => decide (p.2 = d) && decide (x p.1 p.2 = 1))).map Prod.fst := by
  induction order generalizing st with
  | nil => simp
  | cons p tl ih =>
    rw [List.foldl_cons, ih, List.filter_cons]
    by_cases h2 : p.2 = d
    · by_cases hx : x p.1 p.2 = 1
      · rw [if_pos (by
          rw [Bool.and_eq_true, decide_eq_true_eq, decide_eq_true_eq]
          exact ⟨h2, hx⟩), List.map_cons]
        have hstep : (fillStep ds' x s st p).out d = st.out d ++ [p.1] := by
          simp only [fillStep]
          rw [if_pos hx]
          exact if_pos h2.symm
        rw [hstep]
        simp [List.append_assoc]
      · rw [if_neg (by
          rw [Bool.and_eq_true, decide_eq_true_eq, decide_eq_true_eq]
          rintro ⟨-, hx1⟩
          exact hx hx1)]
        have hstep : (fillStep ds' x s st p).out d = st.out d := by
          simp only [fillStep]
          rw [if_neg hx]
        rw [hstep]
    · rw [if_neg (by
        rw [Bool.and_eq_true, decide_eq_true_eq, decide_eq_true_eq]
        rintro ⟨h2x, -⟩
        exact h2 h2x)]
      have hstep : (fillStep ds' x s st p).out d = st.out d := by
        by_cases hx : x p.1 p.2 = 1
        · simp only [fillStep]
          rw [if_pos hx]
          exact if_neg (fun hh => h2 hh.symm)
        · simp only [fillStep]
          rw [if_neg hx]
      rw [hstep]

theorem fillRun_out_mem (ds' : List Device) (x s : ℕ → ℕ → ℚ)
    (order : List (ℕ × ℕ)) (d e : ℕ)
    (h : e ∈ (fillRun x s order ds').out d) : x e d = 1 := by
  unfold fillRun at h
  rw [fillFold_out_spec] at h
  have h0 : (⟨fun _ => [], fun _ _ => none⟩ : FillState).out d = [] := rfl
  rw [h0, List.nil_append] at h
  obtain ⟨p, hp, hfst⟩ := List.mem_map.mp h
  have hc := List.of_mem_filter hp
  rw [Bool.and_eq_true, decide_eq_true_eq, decide_eq_true_eq] at hc
  rw [← hfst, ← hc.1]
  exact hc.2

theorem fillRun_out_perm (ds' : List Device) (x s : ℕ → ℕ → ℚ)
    (order : List (ℕ × ℕ)) (E d : ℕ)
    (horder : List.Perm order (xPairs E ds'.length)) (hd : d < ds'.length) :
    List.Perm ((fillRun x s order ds').out d) (assignedIdx x E d) := by
  have h1 : (fillRun x s order ds').out d =
      (order.filter
        (fun p => decide (p.2 = d) && decide (x p.1 p.2 = 1))).map Prod.fst := by
    unfold fillRun
    rw [fillFold_out_spec]
    have h0 : (⟨fun _ => [], fun _ _ => none⟩ : FillState).out d = [] := rfl
    rw [h0, List.nil_append]
  have h2 : (fillRun x s (xPairs E ds'.length) ds').out d =
      ((xPairs E ds'.length).filter
        (fun p => decide (p.2 = d) && decide (x p.1 p.2 = 1))).map Prod.fst := by
    unfold fillRun
    rw [fillFold_out_spec]
    have h0 : (⟨fun _ => [], fun _ _ => none⟩ : FillState).out d = [] := rfl
    rw [h0, List.nil_append]
  rw [h1, ← fillRun_out x s E ds' d hd, h2]
  exact (horder.filter _).map _

theorem mem_assignedIdx {x : ℕ → ℕ → ℚ} {E d e : ℕ} :
    e ∈ assignedIdx x E d ↔ e < E ∧ x e d = 1 := by
  simp [assignedIdx, List.mem_filter, List.mem_range]

theorem sum_map_zeroSol_s (l : List ℕ) (d : ℕ) :
    (l.map (fun e => zeroSol.s e d)).sum = 0 := by
  simp [zeroSol]

theorem sum_map_zeroSol_x (l : List ℕ) (d : ℕ) :
    (l.map (fun e => zeroSol.x e d)).sum = 0 := by
  simp [zeroSol]

theorem zeroSol_modelSat (es : List Element) (ds : List Device) (us : List User)
    (m : PreOut) (h : ∀ d < ds.length, 0 ≤ (ds.getD d default).area) :
    ModelSat es ds us m zeroSol := by
  refine ⟨fun e he d hd => Or.inl rfl, ?_, fun e he d hd _ => rfl,
    fun e he d hd _ => rfl, ?_, fun e he d hd _ => rfl, ?_⟩
  · intro d hd
    rw [sum_map_zeroSol_s]
    exact h d hd
  · intro e he d hd h1
    exact absurd h1 (by norm_num [zeroSol])
  · intro d hd _
    exact sum_map_zeroSol_x _ _

/-- C1: the model builder computes `element_device_access[e, d] = 1` exactly
when some user has both device access and element access; whenever the
entry is 0 the emitted constraints force `assign[e, d] = 0`, so in any
returned mapping an element is never assigned to a device no user can
access together with it. -/
theorem claim_C1 (es : List Element) (ds : List Device) (us : List User)
    (sol : MilpSolution)
    (hsat : ModelSat es ds us (pre_process_objects es ds us) sol) :
    (∀ e d, element_device_access us.length
        (pre_process_objects es ds us).user_device_access
        (pre_process_objects es ds us).user_element_access e d = true ↔
      ∃ u < us.length, (pre_process_objects es ds us).user_device_access u d = true ∧
        (pre_process_objects es ds us).user_element_access u e = true) ∧
    (∀ e < es.length, ∀ d < ds.length,
      (¬ ∃ u < us.length,
          (pre_process_objects es ds us).user_device_access u d = true ∧
          (pre_process_objects es ds us).user_element_access u e = true) →
      sol.x e d = 0 ∧ ∀ order : List (ℕ × ℕ),
        e ∉ (fillRun sol.x sol.s order ds).out d) := by
  have hiff : ∀ e d, element_device_access us.length
      (pre_process_objects es ds us).user_device_access
      (pre_process_objects es ds us).user_element_access e d = true ↔
      ∃ u < us.length, (pre_process_objects es ds us).user_device_access u d = true ∧
        (pre_process_objects es ds us).user_element_access u e = true := by
    intro e d
    unfold element_device_access
    rw [List.any_eq_true]
    constructor
    · rintro ⟨u, hu, h⟩
      rw [List.mem_range] at hu
      rw [Bool.and_eq_true] at h
      exact ⟨u, hu, h.1, h.2⟩
    · rintro ⟨u, hu, h1, h2⟩
      exact ⟨u, List.mem_range.mpr hu, by rw [Bool.and_eq_true]; exact ⟨h1, h2⟩⟩
  refine ⟨hiff, ?_⟩
  intro e he d hd hno
  have heda : element_device_access us.length
      (pre_process_objects es ds us).user_device_access
      (pre_process_objects es ds us).user_element_access e d = false := by
    rw [Bool.eq_false_iff]
    intro h
    exact hno ((hiff e d).mp h)
  have hfinal : edaFinal us.length (pre_process_objects es ds us) e d = false := by
    unfold edaFinal
    rw [heda]
    rfl
  have hx : sol.x e d = 0 := hsat.2.2.2.2.2.1 e he d hd hfinal
  refine ⟨hx, ?_⟩
  intro order hmem
  have hx1 := fillRun_out_mem ds sol.x sol.s order d e hmem
  rw [hx] at hx1
  norm_num at hx1

/-- Witness for C1 at a concrete scenario: a single user without access to
the single element, and the all-zero solution (which satisfies all emitted
constraints). -/
theorem claim_C1_witness :
    ModelSat [elemSecret] [devA] [userA]
      (pre_process_objects [elemSecret] [devA] [userA]) zeroSol ∧
    ((∀ e d, element_device_access 1
        (pre_process_objects [elemSecret] [devA] [userA]).user_device_access
        (pre_process_objects [elemSecret] [devA] [userA]).user_element_access e d = true ↔
      ∃ u < 1,
        (pre_process_objects [elemSecret] [devA] [userA]).user_device_access u d = true ∧
        (pre_process_objects [elemSecret] [devA] [userA]).user_element_access u e = true) ∧
     (∀ e < 1, ∀ d < 1,
      (¬ ∃ u < 1,
          (pre_process_objects [elemSecret] [devA] [userA]).user_device_access u d = true ∧
          (pre_process_objects [elemSecret] [devA] [userA]).user_element_access u e = true) →
      zeroSol.x e d = 0 ∧ ∀ order : List (ℕ × ℕ),
        e ∉ (fillRun zeroSol.x zeroSol.s order [devA]).out d)) :=
  ⟨zeroSol_modelSat [elemSecret] [devA] [userA] _
      (by intro d hd; simp only [List.length_singleton] at hd; interval_cases d; norm_num [devA, Device.area]),
   claim_C1 [elemSecret] [devA] [userA] zeroSol
     (zeroSol_modelSat [elemSecret] [devA] [userA] _
       (by intro d hd; simp only [List.length_singleton] at hd; interval_cases d; norm_num [devA, Device.area]))⟩

/-- C4: the model contains indicator constraints forcing `size[e, d] = 0`
when `assign[e, d]` is false, and `min_area ≤ size[e, d] ≤
min(max_area, device.area)` when it is true; hence every pair assigned in
the extracted output has its occupied size in that interval. -/
theorem claim_C4 (es : List Element) (ds : List Device) (us : List User)
    (sol : MilpSolution)
    (hsat : ModelSat es ds us (pre_process_objects es ds us) sol) :
    ∀ e < es.length, ∀ d < ds.length,
      (sol.x e d = 0 → sol.s e d = 0) ∧
      (sol.x e d = 1 → (es.getD e default).minArea ≤ sol.s e d ∧
        sol.s e d ≤ min (es.getD e default).maxArea (ds.getD d default).area) ∧
      (∀ order : List (ℕ × ℕ), e ∈ (fillRun sol.x sol.s order ds).out d →
        (es.getD e default).minArea ≤ sol.s e d ∧
        sol.s e d ≤ min (es.getD e default).maxArea (ds.getD d default).area) := by
  intro e he d hd
  refine ⟨hsat.2.2.2.1 e he d hd, hsat.2.2.2.2.1 e he d hd, ?_⟩
  intro order hmem
  exact hsat.2.2.2.2.1 e he d hd (fillRun_out_mem ds sol.x sol.s order d e hmem)

/-- Witness for C4 at a concrete scenario with the all-zero solution. -/
theorem claim_C4_witness :
    ModelSat [elemA] [devA] [userA]
      (pre_process_objects [elemA] [devA] [userA]) zeroSol ∧
    (∀ e < 1, ∀ d < 1,
      (zeroSol.x e d = 0 → zeroSol.s e d = 0) ∧
      (zeroSol.x e d = 1 → (([elemA] : List Element).getD e default).minArea ≤ zeroSol.s e d ∧
        zeroSol.s e d ≤ min (([elemA] : List Element).getD e default).maxArea
          (([devA] : List Device).getD d default).area) ∧
      (∀ order : List (ℕ × ℕ), e ∈ (fillRun zeroSol.x zeroSol.s order [devA]).out d →
        (([elemA] : List Element).getD e default).minArea ≤ zeroSol.s e d ∧
        zeroSol.s e d ≤ min (([elemA] : List Element).getD e default).maxArea
          (([devA] : List Device).getD d default).area)) :=
  ⟨zeroSol_modelSat [elemA] [devA] [userA] _
      (by intro d hd; simp only [List.length_singleton] at hd; interval_cases d; norm_num [devA, Device.area]),
   claim_C4 [elemA] [devA] [userA] zeroSol
     (zeroSol_modelSat [elemA] [devA] [userA] _
       (by intro d hd; simp only [List.length_singleton] at hd; interval_cases d; norm_num [devA, Device.area]))⟩

theorem le_foldl_max (l : List ℚ) (b : ℚ) : b ≤ l.foldl max b := by
  induction l generalizing b with
  | nil => exact le_refl b
  | cons c tl ih => exact le_trans (le_max_left b c) (ih (max b c))

theorem mem_le_foldl_max (l : List ℚ) (b x : ℚ) (hx : x ∈ l) : x ≤ l.foldl max b := by
  induction l generalizing b with
  | nil => cases hx
  | cons c tl ih =>
    rcases List.mem_cons.mp hx with rfl | h
    · exact le_trans (le_max_right b x) (le_foldl_max tl _)
    · exact ih _ h

theorem le_vecMax_of_mem {l : List ℚ} {x : ℚ} (hx : x ∈ l) : x ≤ vecMax l := by
  cases l with
  | nil => cases hx
  | cons a tl =>
    rcases List.mem_cons.mp hx with rfl | h
    · exact le_foldl_max tl x
    · exact mem_le_foldl_max tl a x h

theorem eps6_pos : (0 : ℚ) < eps6 := by norm_num [eps6]

theorem eps6_le_one : eps6 ≤ (1 : ℚ) := by norm_num [eps6]

theorem normCol_apart {R c : ℕ} (m : ℕ → ℕ → ℚ) {c' : ℕ} (h : c' ≠ c) (r : ℕ) :
    normCol R c m r c' = m r c' := by
  simp [normCol, h]

theorem normCol_nonneg {R c : ℕ} {m : ℕ → ℕ → ℚ} (r c' : ℕ) (h : 0 ≤ m r c') :
    0 ≤ normCol R c m r c' := by
  simp only [normCol]
  split_ifs with h1 h2
  · exact div_nonneg h (le_of_lt (lt_trans eps6_pos h2))
  · exact h
  · exact h

theorem normCol_le_one {R c : ℕ} {m : ℕ → ℕ → ℚ} {r : ℕ} (hr : r < R) :
    normCol R c m r c ≤ 1 := by
  have hmem : m r c ∈ (List.range R).map (fun r' => m r' c) :=
    List.mem_map.mpr ⟨r, List.mem_range.mpr hr, rfl⟩
  have hle : m r c ≤ vecMax ((List.range R).map (fun r' => m r' c)) :=
    le_vecMax_of_mem hmem
  simp only [normCol, if_true]
  split_ifs with h2
  · exact (div_le_one (lt_trans eps6_pos h2)).mpr hle
  · have h3 := not_lt.mp h2
    linarith [eps6_le_one]

theorem normCol_zero_col {R c : ℕ} {m : ℕ → ℕ → ℚ} (hz : ∀ r', m r' c = 0) (r : ℕ) :
    normCol R c m r c = 0 := by
  simp only [normCol, if_true]
  split_ifs with h2
  · rw [hz r]
    exact zero_div _
  · exact hz r

theorem foldl_normCol_spec (R : ℕ) (cs : List ℕ) (m : ℕ → ℕ → ℚ) (h : NonnegM m) :
    NonnegM (cs.foldl (fun acc c => normCol R c acc) m) ∧
    (∀ c, GoodCol R m c → GoodCol R (cs.foldl (fun acc c => normCol R c acc) m) c) ∧
    (∀ c ∈ cs, GoodCol R (cs.foldl (fun acc c => normCol R c acc) m) c) := by
  induction cs generalizing m with
  | nil => exact ⟨h, fun c hc => hc, fun c hc => absurd hc (List.not_mem_nil c)⟩
  | cons c0 tl ih =>
    simp only [List.foldl_cons]
    have h1 : NonnegM (normCol R c0 m) := fun r c' => normCol_nonneg r c' (h r c')
    obtain ⟨ihn, ihp, ihe⟩ := ih (normCol R c0 m) h1
    have hstep : ∀ c, GoodCol R m c → GoodCol R (normCol R c0 m) c := by
      intro c hc r hr
      by_cases hcc : c = c0
      · subst hcc
        exact ⟨normCol_nonneg r c (h r c), normCol_le_one hr⟩
      · rw [normCol_apart m hcc r]
        exact hc r hr
    have hself : GoodCol R (normCol R c0 m) c0 := fun r hr =>
      ⟨normCol_nonneg r c0 (h r c0), normCol_le_one hr⟩
    refine ⟨ihn, fun c hc => ihp c (hstep c hc), ?_⟩
    intro c hc
    rcases List.mem_cons.mp hc with rfl | hmem
    · exact ihp c hself
    · exact ihe c hmem

theorem normAllCols_nonneg (R C : ℕ) (m : ℕ → ℕ → ℚ) (h : NonnegM m) :
    NonnegM (normAllCols R C m) :=
  (foldl_normCol_spec R (List.range C) m h).1

theorem normAllCols_goodCol (R C : ℕ) (m : ℕ → ℕ → ℚ) (h : NonnegM m) :
    ∀ c < C, GoodCol R (normAllCols R C m) c := fun c hc =>
  (foldl_normCol_spec R (List.range C) m h).2.2 c (List.mem_range.mpr hc)

theorem refineStep_imp_cases (U : ℕ) (uda : ℕ → ℕ → Bool) (d e : ℕ)
    (st : RefState) (p q : ℕ) :
    (refineStep U uda d e st).imp p q = st.imp p q ∨
    (refineStep U uda d e st).imp p q = 0 := by
  simp only [refineStep]
  split_ifs with h
  · by_cases hc : p = e ∧ q = d
    · right; simp [hc]
    · left; simp [hc]
  · left; rfl

theorem refineFold_imp_cases (U : ℕ) (uda : ℕ → ℕ → Bool) (d : ℕ) (es : List ℕ)
    (st : RefState) (p q : ℕ) :
    ((es.foldl (fun acc e => refineStep U uda d e acc) st).imp p q = st.imp p q) ∨
    ((es.foldl (fun acc e => refineStep U uda d e acc) st).imp p q = 0) := by
  induction es generalizing st with
  | nil => left; rfl
  | cons e0 tl ih =>
    simp only [List.foldl_cons]
    rcases ih (refineStep U uda d e0 st) with h | h
    · rw [h]; exact refineStep_imp_cases U uda d e0 st p q
    · right; exact h

theorem refineColumn_spec (E U : ℕ) (uda : ℕ → ℕ → Bool) (d : ℕ) (st : RefState)
    (h : NonnegM st.imp) :
    NonnegM (refineColumn E U uda d st).imp ∧
    (∀ c, GoodCol E st.imp c → GoodCol E (refineColumn E U uda d st).imp c) ∧
    GoodCol E (refineColumn E U uda d st).imp d := by
  have hn' : NonnegM ((List.range E).foldl
      (fun acc e => refineStep U uda d e acc) st).imp := by
    intro p q
    rcases refineFold_imp_cases U uda d (List.range E) st p q with hh | hh
    · rw [hh]; exact h p q
    · rw [hh]
  have himp : (refineColumn E U uda d st).imp =
      normCol E d ((List.range E).foldl (fun acc e => refineStep U uda d e acc) st).imp :=
    rfl
  refine ⟨?_, ?_, ?_⟩
  · rw [himp]
    exact fun r c' => normCol_nonneg r c' (hn' r c')
  · intro c hc r hr
    rw [himp]
    by_cases hcd : c = d
    · subst hcd
      exact ⟨normCol_nonneg r c (hn' r c), normCol_le_one hr⟩
    · rw [normCol_apart _ hcd r]
      rcases refineFold_imp_cases U uda d (List.range E) st r c with hh | hh
      · rw [hh]; exact hc r hr
      · rw [hh]; exact ⟨le_refl 0, by norm_num⟩
  · intro r hr
    rw [himp]
    exact ⟨normCol_nonneg r d (hn' r d), normCol_le_one hr⟩

theorem foldl_refineColumn_spec (E U : ℕ) (uda : ℕ → ℕ → Bool) (ds : List ℕ)
    (st : RefState) (h : NonnegM st.imp) :
    NonnegM ((ds.foldl (fun acc d => refineColumn E U uda d acc) st).imp) ∧
    (∀ c, GoodCol E st.imp c →
      GoodCol E ((ds.foldl (fun acc d => refineColumn E U uda d acc) st).imp) c) ∧
    (∀ c ∈ ds, GoodCol E ((ds.foldl (fun acc d => refineColumn E U uda d acc) st).imp) c) := by
  induction ds generalizing st with
  | nil => exact ⟨h, fun c hc => hc, fun c hc => absurd hc (List.not_mem_nil c)⟩
  | cons d0 tl ih =>
    simp only [List.foldl_cons]
    obtain ⟨sn, sp, sd⟩ := refineColumn_spec E U uda d0 st h
    obtain ⟨ihn, ihp, ihe⟩ := ih (refineColumn E U uda d0 st) sn
    refine ⟨ihn, fun c hc => ihp c (sp c hc), ?_⟩
    intro c hc
    rcases List.mem_cons.mp hc with rfl | hmem
    · exact ihp c sd
    · exact ihe c hmem

theorem refineAll_goodCols (E D U : ℕ) (uda : ℕ → ℕ → Bool) (st : RefState)
    (h : NonnegM st.imp) : ∀ d < D, GoodCol E (refineAll E D U uda st).imp d :=
  fun d hd =>
    (foldl_refineColumn_spec E U uda (List.range D) st h).2.2 d (List.mem_range.mpr hd)

theorem elem_props_valid_getD (es : List Element)
    (hVE : ∀ el ∈ es, el.props.valid) (e : ℕ) : (es.getD e default).props.valid := by
  by_cases he : e < es.length
  · rw [List.getD_eq_getElem es default he]
    exact hVE _ (List.getElem_mem he)
  · rw [List.getD_eq_default es default (le_of_not_lt he)]
    decide

theorem dev_props_valid_getD (ds : List Device)
    (hVD : ∀ dv ∈ ds, dv.props.valid) (d : ℕ) : (ds.getD d default).props.valid := by
  by_cases hd : d < ds.length
  · rw [List.getD_eq_getElem ds default hd]
    exact hVD _ (List.getElem_mem hd)
  · rw [List.getD_eq_default ds default (le_of_not_lt hd)]
    decide

theorem rawCompMatrix_nonneg (es : List Element) (ds : List Device)
    (hVE : ∀ el ∈ es, el.props.valid) (hVD : ∀ dv ∈ ds, dv.props.valid) :
    NonnegM (rawCompMatrix es ds) := by
  intro e d
  unfold rawCompMatrix calculate_compatibility
  exact_mod_cast Properties.dot_nonneg (dev_props_valid_getD ds hVD d)
    (elem_props_valid_getD es hVE e)

theorem importance_getD_nonneg (es : List Element)
    (hImp : ∀ el ∈ es, 0 ≤ el.importance) (e : ℕ) :
    0 ≤ (es.getD e default).importance := by
  by_cases he : e < es.length
  · rw [List.getD_eq_getElem es default he]
    exact hImp _ (List.getElem_mem he)
  · rw [List.getD_eq_default es default (le_of_not_lt he)]
    exact le_refl 0

theorem overrides_getD_nonneg (us : List User)
    (hOvr : ∀ usr ∈ us, ∀ p ∈ usr.importance, 0 ≤ p.2) (u : ℕ) :
    ∀ p ∈ (us.getD u default).importance, 0 ≤ p.2 := by
  by_cases hu : u < us.length
  · rw [List.getD_eq_getElem us default hu]
    exact hOvr _ (List.getElem_mem hu)
  · rw [List.getD_eq_default us default (le_of_not_lt hu)]
    intro p hp
    have hnil : (default : User).importance = [] := rfl
    rw [hnil] at hp
    cases hp

theorem foldl_override_nonneg (idxf : String → Option ℕ) (e : ℕ) :
    ∀ (l : List (String × ℚ)) (base : ℚ), 0 ≤ base → (∀ p ∈ l, 0 ≤ p.2) →
      0 ≤ l.foldl (fun cur p =>
        match idxf p.1 with
        | some i => if i = e then p.2 else cur
        | none => cur) base := by
  intro l
  induction l with
  | nil => intro base hb _; exact hb
  | cons p tl ih =>
    intro base hb hl
    simp only [List.foldl_cons]
    apply ih
    · cases hidx : idxf p.1 with
      | some i =>
        simp only [hidx]
        split_ifs
        · exact hl p (List.mem_cons_self p tl)
        · exact hb
      | none => simp only [hidx]; exact hb
    · exact fun q hq => hl q (List.mem_cons_of_mem _ hq)

theorem initialElementUserImp_nonneg (es : List Element) (us : List User)
    (hImp : ∀ el ∈ es, 0 ≤ el.importance)
    (hOvr : ∀ usr ∈ us, ∀ p ∈ usr.importance, 0 ≤ p.2) :
    ∀ e u, 0 ≤ initialElementUserImp es us e u := by
  intro e u
  unfold initialElementUserImp
  exact foldl_override_nonneg (element_name_index es) e _ _
    (importance_getD_nonneg es hImp e) (overrides_getD_nonneg us hOvr u)

theorem imp2Matrix_nonneg (es : List Element) (us : List User)
    (hImp : ∀ el ∈ es, 0 ≤ el.importance)
    (hOvr : ∀ usr ∈ us, ∀ p ∈ usr.importance, 0 ≤ p.2) :
    NonnegM (imp2Matrix es us) := by
  intro e u
  unfold imp2Matrix
  apply mul_nonneg
  · split_ifs
    · exact initialElementUserImp_nonneg es us hImp hOvr e u
    · exact le_refl 0
  · split_ifs <;> norm_num

theorem euiMatrix_nonneg (es : List Element) (us : List User)
    (hImp : ∀ el ∈ es, 0 ≤ el.importance)
    (hOvr : ∀ usr ∈ us, ∀ p ∈ usr.importance, 0 ≤ p.2) :
    NonnegM (euiMatrix es us) :=
  normAllCols_nonneg _ _ _ (imp2Matrix_nonneg es us hImp hOvr)

theorem impED1Matrix_nonneg (es : List Element) (ds : List Device) (us : List User)
    (hImp : ∀ el ∈ es, 0 ≤ el.importance)
    (hOvr : ∀ usr ∈ us, ∀ p ∈ usr.importance, 0 ≤ p.2) :
    NonnegM (impED1Matrix es ds us) := by
  intro e d
  have h0 : 0 ≤ impED0Matrix es ds us e d := by
    unfold impED0Matrix
    apply List.sum_nonneg
    intro x hx
    rw [List.mem_map] at hx
    obtain ⟨u, -, rfl⟩ := hx
    apply mul_nonneg (euiMatrix_nonneg es us hImp hOvr e u)
    split_ifs <;> norm_num
  simp only [impED1Matrix]
  split_ifs with hc
  · exact div_nonneg h0 (Nat.cast_nonneg _)
  · exact h0

/-- C3: after `pre_process_objects` returns (on inputs with non-negative
element importances and overrides, and constructor-accepted `Properties`),
every entry of `element_user_imp`, `element_device_comp` and
`element_device_imp` lies in [0, 1], and the `normalized` helper leaves an
all-zero column all zero (it divides by the column maximum only when that
maximum exceeds 1e-6). -/
theorem claim_C3 (es : List Element) (ds : List Device) (us : List User)
    (hImp : ∀ el ∈ es, 0 ≤ el.importance)
    (hOvr : ∀ usr ∈ us, ∀ p ∈ usr.importance, 0 ≤ p.2)
    (hVE : ∀ el ∈ es, el.props.valid)
    (hVD : ∀ dv ∈ ds, dv.props.valid) :
    (∀ e < es.length, ∀ u < us.length,
      0 ≤ (pre_process_objects es ds us).element_user_imp e u ∧
      (pre_process_objects es ds us).element_user_imp e u ≤ 1) ∧
    (∀ e < es.length, ∀ d < ds.length,
      0 ≤ (pre_process_objects es ds us).element_device_comp e d ∧
      (pre_process_objects es ds us).element_device_comp e d ≤ 1) ∧
    (∀ e < es.length, ∀ d < ds.length,
      0 ≤ (pre_process_objects es ds us).element_device_imp e d ∧
      (pre_process_objects es ds us).element_device_imp e d ≤ 1) ∧
    (∀ (mm : ℕ → ℕ → ℚ) (R c : ℕ), (∀ r', mm r' c = 0) →
      ∀ r, normCol R c mm r c = 0) := by
  refine ⟨?_, ?_, ?_, fun mm R c hz r => normCol_zero_col hz r⟩
  · intro e he u hu
    exact normAllCols_goodCol es.length us.length (imp2Matrix es us)
      (imp2Matrix_nonneg es us hImp hOvr) u hu e he
  · intro e he d hd
    exact normAllCols_goodCol es.length ds.length (rawCompMatrix es ds)
      (rawCompMatrix_nonneg es ds hVE hVD) d hd e he
  · intro e he d hd
    exact refineAll_goodCols es.length ds.length us.length (udaMatrix ds us)
      ⟨impED1Matrix es ds us, uea1Matrix es us⟩
      (impED1Matrix_nonneg es ds us hImp hOvr) d hd e he

/-- Witness for C3 at a concrete scenario with non-negative importances and
overrides and constructor-accepted `Properties`. -/
theorem claim_C3_witness :
    ((∀ el ∈ ([elemA] : List Element), 0 ≤ el.importance) ∧
     (∀ usr ∈ ([userA] : List User), ∀ p ∈ usr.importance, 0 ≤ p.2) ∧
     (∀ el ∈ ([elemA] : List Element), el.props.valid) ∧
     (∀ dv ∈ ([devA] : List Device), dv.props.valid)) ∧
    ((∀ e < ([elemA] : List Element).length, ∀ u < ([userA] : List User).length,
      0 ≤ (pre_process_objects [elemA] [devA] [userA]).element_user_imp e u ∧
      (pre_process_objects [elemA] [devA] [userA]).element_user_imp e u ≤ 1) ∧
     (∀ e < ([elemA] : List Element).length, ∀ d < ([devA] : List Device).length,
      0 ≤ (pre_process_objects [elemA] [devA] [userA]).element_device_comp e d ∧
      (pre_process_objects [elemA] [devA] [userA]).element_device_comp e d ≤ 1) ∧
     (∀ e < ([elemA] : List Element).length, ∀ d < ([devA] : List Device).length,
      0 ≤ (pre_process_objects [elemA] [devA] [userA]).element_device_imp e d ∧
      (pre_process_objects [elemA] [devA] [userA]).element_device_imp e d ≤ 1) ∧
     (∀ (mm : ℕ → ℕ → ℚ) (R c : ℕ), (∀ r', mm r' c = 0) →
      ∀ r, normCol R c mm r c = 0)) :=
  ⟨⟨by intro el hel; rw [List.mem_singleton] at hel; subst hel; norm_num [elemA],
    by
      intro usr husr p hp
      rw [List.mem_singleton] at husr
      subst husr
      rw [show userA.importance = [("canvas", (3 : ℚ))] from rfl,
        List.mem_singleton] at hp
      subst hp
      norm_num,
    by intro el hel; rw [List.mem_singleton] at hel; subst hel; decide,
    by intro dv hdv; rw [List.mem_singleton] at hdv; subst hdv; decide⟩,
   claim_C3 [elemA] [devA] [userA]
     (by intro el hel; rw [List.mem_singleton] at hel; subst hel; norm_num [elemA])
     (by
       intro usr husr p hp
       rw [List.mem_singleton] at husr
       subst husr
       rw [show userA.importance = [("canvas", (3 : ℚ))] from rfl,
         List.mem_singleton] at hp
       subst hp
       norm_num)
     (by intro el hel; rw [List.mem_singleton] at hel; subst hel; decide)
     (by intro dv hdv; rw [List.mem_singleton] at hdv; subst hdv; decide)⟩

theorem fold_sizes_untouched (ds' : List Device) (x s : ℕ → ℕ → ℚ)
    (l : List (ℕ × ℕ)) (st : FillState) (e : ℕ) (nm : String)
    (h : ∀ p ∈ l, ¬(e = p.1 ∧ nm = (ds'.getD p.2 default).name)) :
    (l.foldl (fillStep ds' x s) st).sizes e nm = st.sizes e nm := by
  induction l generalizing st with
  | nil => rfl
  | cons p tl ih =>
    simp only [List.foldl_cons]
    rw [ih _ (fun q hq => h q (List.mem_cons_of_mem _ hq))]
    by_cases hx : x p.1 p.2 = 1
    · simp only [fillStep]
      rw [if_pos hx]
      exact if_neg (h p (List.mem_cons_self p tl))
    · simp only [fillStep]
      rw [if_neg hx]

theorem fold_sizes_write (ds' : List Device) (x s : ℕ → ℕ → ℚ)
    (e d : ℕ) (hx : x e d = 1) :
    ∀ (l : List (ℕ × ℕ)) (st : FillState),
      (e, d) ∈ l →
      (∀ p ∈ l, (e = p.1 ∧ (ds'.getD d default).name = (ds'.getD p.2 default).name) →
        p = (e, d)) →
      (l.foldl (fillStep ds' x s) st).sizes e (ds'.getD d default).name =
        some (s e d) := by
  intro l
  induction l with
  | nil => intro st hmem _; cases hmem
  | cons p tl ih =>
    intro st hmem huniq
    simp only [List.foldl_cons]
    by_cases hp : p = (e, d)
    · subst hp
      by_cases hmem' : (e, d) ∈ tl
      · exact ih _ hmem' (fun q hq hcond => huniq q (List.mem_cons_of_mem _ hq) hcond)
      · have hno : ∀ q ∈ tl,
            ¬(e = q.1 ∧ (ds'.getD d default).name = (ds'.getD q.2 default).name) := by
          intro q hq hcond
          have hq' := huniq q (List.mem_cons_of_mem _ hq) hcond
          rw [hq'] at hq
          exact hmem' hq
        rw [fold_sizes_untouched ds' x s tl _ e _ hno]
        simp [fillStep, hx]
    · have hmem' : (e, d) ∈ tl := by
        rcases List.mem_cons.mp hmem with h1 | h1
        · exact absurd h1.symm hp
        · exact h1
      exact ih _ hmem' (fun q hq hcond => huniq q (List.mem_cons_of_mem _ hq) hcond)

theorem mem_xPairs {E D e d : ℕ} : (e, d) ∈ xPairs E D ↔ e < E ∧ d < D := by
  simp [xPairs, List.mem_flatMap, List.mem_map, List.mem_range]

theorem devIdx_eq_of_name_eq (ds' : List Device)
    (hnames : (ds'.map Device.name).Nodup) {i j : ℕ}
    (hi : i < ds'.length) (hj : j < ds'.length)
    (h : (ds'.getD i default).name = (ds'.getD j default).name) : i = j := by
  have hi' : i < (ds'.map Device.name).length := by simpa using hi
  have hj' : j < (ds'.map Device.name).length := by simpa using hj
  rw [List.getD_eq_getElem ds' default hi, List.getD_eq_getElem ds' default hj] at h
  have h1 : (ds'.map Device.name)[i] = (ds'.map Device.name)[j] := by
    simpa using h
  exact (List.Nodup.getElem_inj_iff hnames).mp h1

theorem getD_map_range {β : Type} (D d : ℕ) (hd : d < D) (f : ℕ → β) (dflt : β) :
    ((List.range D).map f).getD d dflt = f d := by
  rw [List.getD_eq_getElem _ dflt (by simpa using hd)]
  simp

theorem buildMapping_keys (ds' : List Device) (es' : List Element)
    (out : ℕ → List ℕ) : (buildMapping ds' es' out).map Prod.fst = ds' := by
  unfold buildMapping
  rw [List.map_map]
  apply List.ext_getElem
  · simp
  · intro i h1 h2
    simp only [List.getElem_map, List.getElem_range, Function.comp_apply]
    exact List.getD_eq_getElem ds' default h2

theorem pairwise_lt_assignedIdx (x : ℕ → ℕ → ℚ) (E d : ℕ) :
    (assignedIdx x E d).Pairwise (· < ·) :=
  (List.pairwise_lt_range E).filter _

theorem pairwise_out_names (es' : List Element) (hs : List.Sorted elemLe es')
    (l : List ℕ) (hp : l.Pairwise (· < ·)) (hbound : ∀ i ∈ l, i < es'.length) :
    (l.map (fun e => es'.getD e default)).Pairwise (fun a b => a.name ≤ b.name) := by
  rw [List.pairwise_map]
  apply List.Pairwise.imp_of_mem ?_ hp
  intro a b ha hb hlt
  have hA := hbound a ha
  have hB := hbound b hb
  rw [List.getD_eq_getElem es' default hA, List.getD_eq_getElem es' default hB]
  exact List.pairwise_iff_getElem.mp hs a b hA hB hlt

/-- C7 counterexample: under a CPython 2 hash-slot iteration order of the
`x` dictionary — here (0,0), (2,0), (1,0), a permutation of the inserted
key set — the returned list for device 0 is the elements named a, c, b in
that order, which is NOT ordered by the elements' sort order, contrary to
the claim; all of the claim's premises (non-empty input, optimal status,
unique device names) hold at this input. -/
theorem claim_C7_counterexample :
    ((([userA] : List User).length ≠ 0 ∧ ([devA] : List Device).length ≠ 0 ∧
      ([c7eA, c7eB, c7eC] : List Element).length ≠ 0) ∧
     outcomeOnes.optimal = true ∧
     (([devA] : List Device).map Device.name).Nodup ∧
     List.Perm c7order
       (xPairs (sortElems [c7eA, c7eB, c7eC]).length (sortDevs [devA]).length)) ∧
    ¬ (((optimize c7order outcomeOnes [c7eA, c7eB, c7eC] [devA]
          [userA]).mapping.getD 0 default).2.Pairwise
        (fun a b => a.name ≤ b.name)) := by
  have hab : ("a" : String) < "b" := String.lt_iff_toList_lt.mpr (by decide)
  have hbc : ("b" : String) < "c" := String.lt_iff_toList_lt.mpr (by decide)
  have hac : ("a" : String) < "c" := String.lt_iff_toList_lt.mpr (by decide)
  have hsortE : sortElems [c7eA, c7eB, c7eC] = [c7eA, c7eB, c7eC] := by
    apply List.Sorted.insertionSort_eq
    refine List.Pairwise.cons ?_ (List.Pairwise.cons ?_ (List.pairwise_singleton _ _))
    · intro b hb
      rcases List.mem_cons.mp hb with rfl | hb
      · exact le_of_lt hab
      · rw [List.mem_singleton] at hb
        subst hb
        exact le_of_lt hac
    · intro b hb
      rw [List.mem_singleton] at hb
      subst hb
      exact le_of_lt hbc
  have hlist : ((optimize c7order outcomeOnes [c7eA, c7eB, c7eC] [devA]
      [userA]).mapping.getD 0 default).2 = [c7eA, c7eC, c7eB] := by
    unfold optimize
    rw [hsortE]
    rw [if_neg (by decide), if_pos (show outcomeOnes.optimal = true from rfl)]
    decide
  refine ⟨⟨by decide, rfl, by simp, ?_⟩, ?_⟩
  · rw [hsortE]
    decide
  · rw [hlist]
    intro h
    have h2 := (List.pairwise_cons.mp h).2
    have h3 := (List.pairwise_cons.mp h2).1 c7eB (List.mem_singleton_self _)
    exact absurd h3 (not_le.mpr hbc)

/-- C7 (amended): on an optimal solve with unique device names, for any
iteration order of the `x` dictionary that enumerates its keys (any
permutation of the inserted key set — CPython 2 yields them in hash-slot
order, so no particular order is guaranteed): the key set of the returned
mapping is exactly the (sorted) input devices; each device's list contains
exactly the elements with solved `assign[e, d] = 1` — a permutation of the
ascending-index list, in an unspecified order; and each listed element
carries the solved `size[e, d]` keyed by the device's name. -/
theorem claim_C7 (order : List (ℕ × ℕ)) (outcome : SolverOutcome)
    (es : List Element) (ds : List Device) (us : List User)
    (hne : us.length ≠ 0 ∧ ds.length ≠ 0 ∧ es.length ≠ 0)
    (hopt : outcome.optimal = true)
    (hnames : (ds.map Device.name).Nodup)
    (horder : List.Perm order (xPairs (sortElems es).length (sortDevs ds).length)) :
    (optimize order outcome es ds us).mapping.map Prod.fst = sortDevs ds ∧
    List.Perm (sortDevs ds) ds ∧
    (∀ d < (sortDevs ds).length,
      List.Perm ((optimize order outcome es ds us).mapping.getD d default).2
        ((assignedIdx outcome.xval (sortElems es).length d).map
          (fun e => (sortElems es).getD e default))) ∧
    (∀ d e, e ∈ assignedIdx outcome.xval (sortElems es).length d ↔
      e < (sortElems es).length ∧ outcome.xval e d = 1) ∧
    (∀ d < (sortDevs ds).length,
      ∀ e ∈ assignedIdx outcome.xval (sortElems es).length d,
        (optimize order outcome es ds us).sizes e ((sortDevs ds).getD d default).name =
          some (outcome.sval e d)) := by
  have hc : ¬((sortUsers us).length = 0 ∨ (sortDevs ds).length = 0 ∨
      (sortElems es).length = 0) := by
    rw [length_sortUsers, length_sortDevs, length_sortElems]
    push_neg
    exact hne
  have hmap : (optimize order outcome es ds us).mapping =
      buildMapping (sortDevs ds) (sortElems es)
        (fillRun outcome.xval outcome.sval order (sortDevs ds)).out := by
    unfold optimize
    rw [if_neg hc, if_pos hopt]
  have hsz : (optimize order outcome es ds us).sizes =
      (fillRun outcome.xval outcome.sval order (sortDevs ds)).sizes := by
    unfold optimize
    rw [if_neg hc, if_pos hopt]
  have hgetD : ∀ d, d < (sortDevs ds).length →
      (optimize order outcome es ds us).mapping.getD d default =
        ((sortDevs ds).getD d default,
          ((fillRun outcome.xval outcome.sval order (sortDevs ds)).out d).map
            (fun e => (sortElems es).getD e default)) := by
    intro d hd
    rw [hmap]
    unfold buildMapping
    rw [getD_map_range _ _ hd]
  have hnames' : ((sortDevs ds).map Device.name).Nodup :=
    (((List.perm_insertionSort devLe ds).map Device.name).nodup_iff).mpr hnames
  refine ⟨?_, List.perm_insertionSort devLe ds, ?_, ?_, ?_⟩
  · rw [hmap]
    exact buildMapping_keys _ _ _
  · intro d hd
    rw [hgetD d hd]
    exact (fillRun_out_perm (sortDevs ds) outcome.xval outcome.sval order
      (sortElems es).length d horder hd).map _
  · intro d e
    exact mem_assignedIdx
  · intro d hd e he
    rw [hsz]
    obtain ⟨heE, hx1⟩ := mem_assignedIdx.mp he
    unfold fillRun
    apply fold_sizes_write (sortDevs ds) outcome.xval outcome.sval e d hx1
    · exact (horder.mem_iff).mpr (mem_xPairs.mpr ⟨heE, hd⟩)
    · intro p hp hcond
      have hpx : p ∈ xPairs (sortElems es).length (sortDevs ds).length :=
        (horder.mem_iff).mp hp
      obtain ⟨p1, p2⟩ := p
      obtain ⟨hp1, hp2⟩ := mem_xPairs.mp hpx
      obtain ⟨h1, h2⟩ := hcond
      have hdp : d = p2 := devIdx_eq_of_name_eq (sortDevs ds) hnames' hd hp2 h2
      have he1 : p1 = e := h1.symm
      have he2 : p2 = d := hdp.symm
      subst he1
      subst he2
      rfl

/-- Witness for C7 (amended) at a concrete non-empty scenario with an
optimal report assigning everything, iterating the dictionary keys in
insertion order (one admissible enumeration). -/
theorem claim_C7_witness :
    (([userA] : List User).length ≠ 0 ∧ ([devA] : List Device).length ≠ 0 ∧
     ([elemA] : List Element).length ≠ 0) ∧
    outcomeOnes.optimal = true ∧
    (([devA] : List Device).map Device.name).Nodup ∧
    List.Perm (xPairs (sortElems [elemA]).length (sortDevs [devA]).length)
      (xPairs (sortElems [elemA]).length (sortDevs [devA]).length) ∧
    ((optimize (xPairs (sortElems [elemA]).length (sortDevs [devA]).length)
        outcomeOnes [elemA] [devA] [userA]).mapping.map Prod.fst =
      sortDevs [devA] ∧
     List.Perm (sortDevs [devA]) [devA] ∧
     (∀ d < (sortDevs [devA]).length,
       List.Perm ((optimize (xPairs (sortElems [elemA]).length
             (sortDevs [devA]).length) outcomeOnes [elemA] [devA]
             [userA]).mapping.getD d default).2
         ((assignedIdx outcomeOnes.xval (sortElems [elemA]).length d).map
           (fun e => (sortElems [elemA]).getD e default))) ∧
     (∀ d e, e ∈ assignedIdx outcomeOnes.xval (sortElems [elemA]).length d ↔
       e < (sortElems [elemA]).length ∧ outcomeOnes.xval e d = 1) ∧
     (∀ d < (sortDevs [devA]).length,
       ∀ e ∈ assignedIdx outcomeOnes.xval (sortElems [elemA]).length d,
         (optimize (xPairs (sortElems [elemA]).length (sortDevs [devA]).length)
             outcomeOnes [elemA] [devA] [userA]).sizes e
             ((sortDevs [devA]).getD d default).name =
           some (outcomeOnes.sval e d))) :=
  ⟨by decide, rfl, by simp, List.Perm.refl _,
   claim_C7 (xPairs (sortElems [elemA]).length (sortDevs [devA]).length)
     outcomeOnes [elemA] [devA] [userA] (by decide) rfl (by simp)
     (List.Perm.refl _)⟩
